import Mathlib

set_option maxHeartbeats 1000000
set_option allowUnsafeReducibility true
attribute [semireducible] Rat.add Rat.sub Rat.mul Rat.inv Rat.ofScientific

/-!
Shallow embedding of the VideoPad clip trigger/playback core.

The repository ships two revisions of the grid-cell trigger handler
(`src/components/GridCell.tsx`): an earlier one that tracks at most one
active audio source per cell in a single ref (`activeSourceRef`), and a
later one that tracks every started source in a set (`activeSources`).
Both are embedded below, as the per-cell transition systems `V1` and `V2`.

Machine floating-point times, volumes and amplitudes are modelled as
rationals; the asynchronous browser environment (timer callbacks,
`onended` callbacks, prop updates from the app shell, the success or
failure of `video.play()`) is modelled as an explicit event alphabet with
rational timestamps.  A pending `setTimeout` is modelled as the optional
deadline `playTimer`; the validity condition on events forbids any event
from being processed after a pending deadline without that timer firing
first, which is exactly the single-threaded event-loop guarantee.
-/

/-- The per-cell configuration read by the trigger handler: the `PadCell`
props (`isEmpty`, `audioBuffer` presence, trim window, `volume`,
`allowOverlap`) plus the `isSuspended` prop of the second revision. -/
structure CellCfg where
  isEmpty : Bool
  isSuspended : Bool
  hasAudioBuffer : Bool
  startTime : ℚ
  endTime : ℚ
  volume : ℚ
  allowOverlap : Bool
  deriving DecidableEq

/-- One `AudioBufferSourceNode` + `GainNode` pair started by a trigger:
its start instant, its scheduled playback length, the gain envelope the
code programmed on its gain node, and whether `stop()` was called. -/
structure Source where
  startedAt : ℚ
  dur : ℚ
  gainStart : ℚ
  gainTarget : ℚ
  rampDur : ℚ
  stopped : Bool
  deriving DecidableEq

/-- A source is audible at instant `now` iff it was not stopped and its
scheduled playback window has not elapsed. -/
def srcActive (now : ℚ) (src : Source) : Bool :=
  !src.stopped && decide (now < src.startedAt + src.dur)

/-- Number of audible playback instances at instant `now`. -/
def countActive (now : ℚ) (ss : List Source) : ℕ :=
  (ss.filter (srcActive now)).length

/-- Mark `stopped` on every source whose position (counting from `j`)
is listed in `idxs`; models calling `stop()` on a collection of nodes. -/
def stopFrom (idxs : List ℕ) : ℕ → List Source → List Source
  | _, [] => []
  | j, src :: ss =>
    (if j ∈ idxs then { src with stopped := true } else src) :: stopFrom idxs (j+1) ss

/-- The event alphabet of a cell: a pointer-down trigger (with the
outcome of the awaited `video.play()`), the auto-stop timer firing, an
`onended` callback for source `i`, prop updates relayed from the app
shell, and React unmount cleanup.  Every event carries its instant. -/
inductive Event where
  | trigger (t : ℚ) (playOk : Bool)
  | timerFire (t : ℚ)
  | sourceEnded (i : ℕ) (t : ℚ)
  | setOverlap (b : Bool) (t : ℚ)
  | setVolume (v : ℚ) (t : ℚ)
  | setSuspended (b : Bool) (t : ℚ)
  | unmount (t : ℚ)
  deriving DecidableEq

namespace V1

/-- State of the first-revision `GridCell`: the single `activeSourceRef`
is `tracked`, `playTimerRef` is the pending deadline `playTimer`, and the
video element's observable fields are explicit. -/
structure State where
  now : ℚ
  cfg : CellCfg
  sources : List Source
  tracked : Option ℕ
  isPlaying : Bool
  playTimer : Option ℚ
  videoPos : ℚ
  videoMuted : Bool
  videoVolume : ℚ
  videoPaused : Bool
  deriving DecidableEq

/-- The source started by the first revision: `gain.setValueAtTime(0)`
then `linearRampToValueAtTime(cell.volume, +0.005)`, playing
`max(0, endTime - startTime)` seconds from `startTime`. -/
def mkSource (t : ℚ) (c : CellCfg) : Source :=
  { startedAt := t, dur := max 0 (c.endTime - c.startTime),
    gainStart := 0, gainTarget := c.volume, rampDur := 5/1000, stopped := false }

/-- Overlap enforcement of the first revision: stop the single tracked
source when `allowOverlap` is false. -/
def afterStop (s : State) : List Source × Option ℕ :=
  match s.tracked with
  | some i =>
      if s.cfg.allowOverlap then (s.sources, some i)
      else (stopFrom [i] 0 s.sources, none)
  | none => (s.sources, none)

/-- `handlePointerDown` of the first revision (post-guard body): overlap
enforcement, audio start, video mute/volume/seek, then on a successful
`play()` the playing flag and a fresh auto-stop timer replacing any
pending one. -/
def trigger (t : ℚ) (playOk : Bool) (s : State) : State :=
  if s.cfg.isEmpty then s else
  let dur := s.cfg.endTime - s.cfg.startTime
  let p := afterStop s
  let p2 : List Source × Option ℕ :=
    if s.cfg.hasAudioBuffer then (p.1 ++ [mkSource t s.cfg], some p.1.length) else p
  let vm : Bool := s.cfg.hasAudioBuffer
  let vv : ℚ := if s.cfg.hasAudioBuffer then s.videoVolume else min 1 (max 0 s.cfg.volume)
  if playOk then
    { now := t, cfg := s.cfg, sources := p2.1, tracked := p2.2,
      isPlaying := true, playTimer := some (t + max 0 dur),
      videoPos := s.cfg.startTime, videoMuted := vm, videoVolume := vv,
      videoPaused := false }
  else
    { now := t, cfg := s.cfg, sources := p2.1, tracked := p2.2,
      isPlaying := s.isPlaying, playTimer := s.playTimer,
      videoPos := s.cfg.startTime, videoMuted := vm, videoVolume := vv,
      videoPaused := s.videoPaused }

/-- `stopPlayback` run as the auto-stop timer callback: pause, seek back
to `startTime`, clear the playing flag, the timer handle and the
tracked-source ref (the source itself is not stopped). -/
def fireTimer (t : ℚ) (s : State) : State :=
  { s with
    now := t, videoPaused := true, videoPos := s.cfg.startTime,
    isPlaying := false, playTimer := none, tracked := none }

/-- The `onended` callback of the first revision: null the ref only when
it still points to the ended source. -/
def endSource (i : ℕ) (t : ℚ) (s : State) : State :=
  { s with now := t, tracked := if s.tracked = some i then none else s.tracked }

/-- Unmount cleanup: clear the pending timer and stop the tracked source. -/
def unmountStep (t : ℚ) (s : State) : State :=
  { s with
    now := t, playTimer := none,
    sources := match s.tracked with
      | some i => stopFrom [i] 0 s.sources
      | none => s.sources }

/-- An event at instant `t` is schedulable iff time moves forward and no
pending auto-stop deadline is skipped. -/
def timeOk (s : State) (t : ℚ) : Bool :=
  decide (s.now ≤ t) &&
    (match s.playTimer with | none => true | some d => decide (t ≤ d))

/-- An `onended` for source `i` may fire once the source was stopped or
its scheduled window has elapsed. -/
def endedOk (s : State) (i : ℕ) (t : ℚ) : Bool :=
  match s.sources.get? i with
  | some src => src.stopped || decide (src.startedAt + src.dur ≤ t)
  | none => false

/-- One step of the first-revision cell; `none` means the event is not
schedulable in this state. -/
def step : Event → State → Option State
  | .trigger t ok, s => if timeOk s t then some (trigger t ok s) else none
  | .timerFire t, s =>
      if s.playTimer = some t ∧ s.now ≤ t then some (fireTimer t s) else none
  | .sourceEnded i t, s =>
      if timeOk s t ∧ endedOk s i t = true then some (endSource i t s) else none
  | .setOverlap b t, s =>
      if timeOk s t then some { s with now := t, cfg := { s.cfg with allowOverlap := b } }
      else none
  | .setVolume v t, s =>
      if timeOk s t then some { s with now := t, cfg := { s.cfg with volume := v } }
      else none
  | .setSuspended b t, s =>
      if timeOk s t then some { s with now := t, cfg := { s.cfg with isSuspended := b } }
      else none
  | .unmount t, s => if timeOk s t then some (unmountStep t s) else none

/-- Run a list of events from a state. -/
def run (s : State) : List Event → Option State
  | [] => some s
  | e :: es => match step e s with
    | some s2 => run s2 es
    | none => none

/-- Initial state of a freshly mounted first-revision cell: no sources,
no timer, the video seeked to `startTime` by `onLoadedMetadata`, muted
iff a decoded buffer exists, with the clamped fallback volume applied by
the mount effect when no buffer exists. -/
def init (c : CellCfg) : State :=
  { now := 0, cfg := c, sources := [], tracked := none, isPlaying := false,
    playTimer := none, videoPos := c.startTime, videoMuted := c.hasAudioBuffer,
    videoVolume := if c.hasAudioBuffer then 1 else min 1 (max 0 c.volume),
    videoPaused := true }

end V1

namespace V2

/-- State of the second-revision `GridCell`: the `activeSources` set is
`trackedSet` (positions into `sources`). -/
structure State where
  now : ℚ
  cfg : CellCfg
  sources : List Source
  trackedSet : List ℕ
  isPlaying : Bool
  playTimer : Option ℚ
  videoPos : ℚ
  videoMuted : Bool
  videoVolume : ℚ
  videoPaused : Bool
  deriving DecidableEq

/-- The source started by the second revision:
`gain.setValueAtTime(max(0, cell.volume / 10))` with no ramp. -/
def mkSource (t : ℚ) (c : CellCfg) : Source :=
  { startedAt := t, dur := max 0 (c.endTime - c.startTime),
    gainStart := max 0 (c.volume / 10), gainTarget := max 0 (c.volume / 10),
    rampDur := 0, stopped := false }

/-- Overlap enforcement of the second revision: stop every source in the
set, then clear the set. -/
def afterStop (s : State) : List Source × List ℕ :=
  if s.cfg.allowOverlap then (s.sources, s.trackedSet)
  else (stopFrom s.trackedSet 0 s.sources, [])

/-- `handlePointerDown` of the second revision (post-guard body): note
that the video element is muted unconditionally. -/
def trigger (t : ℚ) (playOk : Bool) (s : State) : State :=
  if s.cfg.isEmpty || s.cfg.isSuspended then s else
  let dur := s.cfg.endTime - s.cfg.startTime
  let p := afterStop s
  let p2 : List Source × List ℕ :=
    if s.cfg.hasAudioBuffer then (p.1 ++ [mkSource t s.cfg], p.1.length :: p.2) else p
  if playOk then
    { now := t, cfg := s.cfg, sources := p2.1, trackedSet := p2.2,
      isPlaying := true, playTimer := some (t + max 0 dur),
      videoPos := s.cfg.startTime, videoMuted := true, videoVolume := s.videoVolume,
      videoPaused := false }
  else
    { now := t, cfg := s.cfg, sources := p2.1, trackedSet := p2.2,
      isPlaying := s.isPlaying, playTimer := s.playTimer,
      videoPos := s.cfg.startTime, videoMuted := true, videoVolume := s.videoVolume,
      videoPaused := s.videoPaused }

/-- `stopVisuals` run as the auto-stop timer callback: clear the playing
flag, pause, seek back to `startTime`; the fired timer is no longer
pending (the stale ref id has no observable effect). -/
def fireTimer (t : ℚ) (s : State) : State :=
  { s with
    now := t, videoPaused := true, videoPos := s.cfg.startTime,
    isPlaying := false, playTimer := none }

/-- The `onended` callback of the second revision: delete the source
from the set. -/
def endSource (i : ℕ) (t : ℚ) (s : State) : State :=
  { s with now := t, trackedSet := s.trackedSet.filter (fun j => j != i) }

/-- Unmount cleanup: clear the pending timer and stop every source in
the set. -/
def unmountStep (t : ℚ) (s : State) : State :=
  { s with
    now := t, playTimer := none,
    sources := stopFrom s.trackedSet 0 s.sources }

/-- Schedulability, as in the first revision. -/
def timeOk (s : State) (t : ℚ) : Bool :=
  decide (s.now ≤ t) &&
    (match s.playTimer with | none => true | some d => decide (t ≤ d))

/-- `onended` enabling condition, as in the first revision. -/
def endedOk (s : State) (i : ℕ) (t : ℚ) : Bool :=
  match s.sources.get? i with
  | some src => src.stopped || decide (src.startedAt + src.dur ≤ t)
  | none => false

/-- One step of the second-revision cell; the suspension effect pauses
the video when `isSuspended` becomes true. -/
def step : Event → State → Option State
  | .trigger t ok, s => if timeOk s t then some (trigger t ok s) else none
  | .timerFire t, s =>
      if s.playTimer = some t ∧ s.now ≤ t then some (fireTimer t s) else none
  | .sourceEnded i t, s =>
      if timeOk s t ∧ endedOk s i t = true then some (endSource i t s) else none
  | .setOverlap b t, s =>
      if timeOk s t then some { s with now := t, cfg := { s.cfg with allowOverlap := b } }
      else none
  | .setVolume v t, s =>
      if timeOk s t then some { s with now := t, cfg := { s.cfg with volume := v } }
      else none
  | .setSuspended b t, s =>
      if timeOk s t then
        some { s with
               now := t, cfg := { s.cfg with isSuspended := b },
               videoPaused := if b then true else s.videoPaused }
      else none
  | .unmount t, s => if timeOk s t then some (unmountStep t s) else none

/-- Run a list of events from a state. -/
def run (s : State) : List Event → Option State
  | [] => some s
  | e :: es => match step e s with
    | some s2 => run s2 es
    | none => none

/-- Initial state of a freshly mounted second-revision cell: the video
element carries a hard `muted` attribute. -/
def init (c : CellCfg) : State :=
  { now := 0, cfg := c, sources := [], trackedSet := [], isPlaying := false,
    playTimer := none, videoPos := c.startTime, videoMuted := true,
    videoVolume := 1, videoPaused := true }

end V2

/-!  `src/services/audio.ts` — Media Decode Adapter and beat-onset heuristic. -/

/-- A raw media byte blob (`Blob`); `size` is the byte count. -/
structure MediaBlob where
  bytes : List ℕ
  deriving DecidableEq

/-- A decoded PCM buffer (`AudioBuffer`): the first channel's samples and
the sample rate. -/
structure PcmBuffer where
  samples : List ℚ
  sampleRate : ℚ
  deriving DecidableEq

/-- `decodeAudio` of the first revision of `src/services/audio.ts`.  The
platform codec (`ctx.decodeAudioData`) is a parameter; `none` for the
blob argument models a JS `null`/`undefined` blob, and a codec result of
`none` models the platform rejecting the bytes. -/
def decodeAudio (codec : MediaBlob → Option PcmBuffer) (blob : Option MediaBlob) :
    Except String PcmBuffer :=
  match blob with
  | none => .error "Cannot decode empty or null blob"
  | some b =>
    if b.bytes.length = 0 then .error "Cannot decode empty or null blob"
    else
      match codec b with
      | some buf => .ok buf
      | none => .error "platform codec rejected the byte stream"

/-- `decodeAudio` of the second revision: same guard, the codec error is
logged and rethrown. -/
def decodeAudioV2 (codec : MediaBlob → Option PcmBuffer) (blob : Option MediaBlob) :
    Except String PcmBuffer :=
  match blob with
  | none => .error "Blob vacio"
  | some b =>
    if b.bytes.length = 0 then .error "Blob vacio"
    else
      match codec b with
      | some buf => .ok buf
      | none => .error "Error decodificando audio"

/-- `Math.abs`. -/
def ratAbs (x : ℚ) : ℚ := if x < 0 then -x else x

/-- Position of the first sample whose absolute amplitude exceeds the
threshold — the scan loop shared by both revisions of `findBeatOnset`. -/
def firstAbove (thr : ℚ) : List ℚ → Option ℕ
  | [] => none
  | x :: xs => if thr < ratAbs x then some 0 else (firstAbove thr xs).map (· + 1)

/-- `findBeatOnset`, first revision: threshold 0.15, and on a hit the
index is backed off by `sampleRate * 0.05` samples (clamped to zero)
before converting to seconds.  Both revisions wrap the whole body in a
`try`/`catch` that turns any decode failure into `0`, so the function is
total and never propagates an error to its caller. -/
def findBeatOnset (codec : MediaBlob → Option PcmBuffer) (blob : Option MediaBlob) : ℚ :=
  match decodeAudio codec blob with
  | .error _ => 0
  | .ok buf =>
    match firstAbove (15/100) buf.samples with
    | none => 0
    | some i => max 0 ((i : ℚ) - buf.sampleRate * (5/100)) / buf.sampleRate

/-- `findBeatOnset`, second revision: threshold 0.08, backoff 30ms
applied after converting to seconds. -/
def findBeatOnsetV2 (codec : MediaBlob → Option PcmBuffer) (blob : Option MediaBlob) : ℚ :=
  match decodeAudioV2 codec blob with
  | .error _ => 0
  | .ok buf =>
    match firstAbove (8/100) buf.samples with
    | none => 0
    | some i => max 0 ((i : ℚ) / buf.sampleRate - 3/100)

/-!  The persistence layer (`src/unnamed/part_006`, second revision:
`videopad-db`) and the app-shell handlers over it. -/

/-- The purely visual transform of a clip. -/
structure ClipTransform where
  scale : ℚ
  x : ℚ
  y : ℚ
  rotation : ℚ
  deriving DecidableEq

/-- A persisted clip record (store `clips`, keyPath `id`). -/
structure ClipRecord where
  id : ℕ
  data : List ℕ
  mimeType : String
  startTime : ℚ
  endTime : ℚ
  volume : ℚ
  transform : ClipTransform
  allowOverlap : Bool
  deriving DecidableEq

/-- The object store keyed by clip id. -/
def ClipStore : Type := ℕ → Option ClipRecord

/-- `db.put` on a keyPath store: replaces the record stored under the
record's own `id`. -/
def putClip (r : ClipRecord) (st : ClipStore) : ClipStore :=
  fun j => if j = r.id then some r else st j

/-- `db.delete`: removes the record under `id`; silently succeeds when
no such record exists. -/
def deleteClip (id : ℕ) (st : ClipStore) : ClipStore :=
  fun j => if j = id then none else st j

/-- `updateClipVolume(id, volume)`: get the record, overwrite only its
`volume` field, and put it back; when no record exists, do nothing
(no write, no error). -/
def updateClipVolume (id : ℕ) (volume : ℚ) (st : ClipStore) : ClipStore :=
  match st id with
  | none => st
  | some r => putClip { r with volume := volume } st

/-- `updateClipOverlap(id, allowOverlap)`: same shape, for the
`allowOverlap` field. -/
def updateClipOverlap (id : ℕ) (allowOverlap : Bool) (st : ClipStore) : ClipStore :=
  match st id with
  | none => st
  | some r => putClip { r with allowOverlap := allowOverlap } st

/-- Operations the app issues against the persistence collaborator. -/
inductive DbOp where
  | put (r : ClipRecord)
  | del (id : ℕ)
  deriving DecidableEq

/-- Whether an operation writes a record. -/
def DbOp.isPut : DbOp → Bool
  | .put _ => true
  | .del _ => false

/-- Apply one persistence operation. -/
def applyDbOp (st : ClipStore) : DbOp → ClipStore
  | .put r => putClip r st
  | .del id => deleteClip id st

/-- Apply a list of persistence operations in order. -/
def applyDbOps (st : ClipStore) : List DbOp → ClipStore
  | [] => st
  | op :: ops => applyDbOps (applyDbOp st op) ops

/-!  The grid controller's delete handler (`src/App.tsx`,
`handleDelete`). -/

/-- An in-memory pad cell as held in the `cells` React state.
`videoUrl` is the tracked object-URL handle (by numeric token) and
`audioBuffer` records whether a decoded buffer is attached. -/
structure AppCell where
  id : ℕ
  videoUrl : Option ℕ
  audioBuffer : Bool
  startTime : ℚ
  endTime : ℚ
  isEmpty : Bool
  volume : ℚ
  transform : ClipTransform
  allowOverlap : Bool
  deriving DecidableEq

/-- `DEFAULT_TRANSFORM`. -/
def defaultTransform : ClipTransform := { scale := 1, x := 0, y := 0, rotation := 0 }

/-- The emptied shape `handleDelete` writes into the deleted slot
(`DEFAULT_VOLUME = 5.0`, `DEFAULT_TRANSFORM`). -/
def emptied (c : AppCell) : AppCell :=
  { c with
    videoUrl := none, audioBuffer := false, startTime := 0, endTime := 0,
    isEmpty := true, volume := 5, transform := defaultTransform,
    allowOverlap := false }

/-- The `setCells` part of `handleDelete id`: map the targeted slot to
its emptied shape, leave every other slot untouched. -/
def handleDeleteCells (id : ℕ) (cells : List AppCell) : List AppCell :=
  cells.map (fun c => if c.id = id then emptied c else c)

/-- The tracked object-URL map (`activeUrlsRef`). -/
def UrlMap : Type := ℕ → Option ℕ

/-- The URL-revocation part of `handleDelete id`: revoke and drop the
tracked URL for the slot, if any. -/
def handleDeleteUrls (id : ℕ) (urls : UrlMap) : UrlMap :=
  fun j => if j = id then none else urls j

/-- The persistence traffic of `handleDelete id`: exactly one
`deleteClip` call, never a `put`. -/
def handleDeleteOps (id : ℕ) : List DbOp := [.del id]

/-!  Auxiliary predicates and concrete fixtures used by the theorems. -/

/-- Events of a run in which the cell stays monophonic and every
`video.play()` call succeeds: no `setOverlap true`, no failing play. -/
def monoEvent : Event → Bool
  | .trigger _ ok => ok
  | .setOverlap b _ => !b
  | _ => true

/-- All events of the list satisfy `monoEvent`. -/
def monoEvents (evs : List Event) : Bool := evs.all monoEvent

/-- `timesChain t ts`: the instants `ts` are sorted and start no earlier
than `t`. -/
def timesChain (t : ℚ) : List ℚ → Bool
  | [] => true
  | u :: us => decide (t ≤ u) && timesChain u us

/-- Key invariant of the second revision: every audible source is a
member of the `activeSources` set (sources leave the set only through
`onended`, which fires only for sources that stopped or elapsed). -/
def V2.InvTracked (s : V2.State) : Prop :=
  ∀ k src, s.sources.get? k = some src → srcActive s.now src = true → k ∈ s.trackedSet

/-- Key invariant of the first revision along monophonic all-plays-succeed
runs: `allowOverlap` is false, every audible source is the tracked one,
and a pending auto-stop deadline is no earlier than the tracked source's
natural end. -/
def V1.InvMono (s : V1.State) : Prop :=
  s.cfg.allowOverlap = false ∧
  (∀ k src, s.sources.get? k = some src → srcActive s.now src = true → s.tracked = some k) ∧
  (∀ i d src, s.tracked = some i → s.playTimer = some d → s.sources.get? i = some src →
     src.startedAt + src.dur ≤ d)

/-- The last instant of a list of instants, defaulting to `t`. -/
def lastTime (t : ℚ) : List ℚ → ℚ
  | [] => t
  | u :: us => lastTime u us

/-- A generic occupied cell configuration used as a witness fixture. -/
def cfgOcc : CellCfg :=
  { isEmpty := false, isSuspended := false, hasAudioBuffer := true,
    startTime := 0, endTime := 1, volume := 5, allowOverlap := false }

/-- Witness fixture: an occupied polyphonic cell. -/
def cfgPoly : CellCfg := { cfgOcc with allowOverlap := true }

/-- Counterexample fixture for the volume claim: `volume` written as 12
through the store. -/
def cfgVol12 : CellCfg := { cfgOcc with volume := 12 }

/-- Witness fixture: `volume = 12` with no decoded buffer (video
fallback path). -/
def cfgVol12NoBuf : CellCfg := { cfgVol12 with hasAudioBuffer := false }

/-- Counterexample fixture for the mute claim: decode failed, so the
cell has no decoded buffer. -/
def cfgNoBuf : CellCfg := { cfgOcc with hasAudioBuffer := false }

/-- A first-revision state with a pending auto-stop deadline at 1,
as after a trigger at 0 on `cfgOcc` (witness fixture). -/
def s1Pending : V1.State :=
  { now := 0, cfg := cfgOcc, sources := [V1.mkSource 0 cfgOcc], tracked := some 0,
    isPlaying := true, playTimer := some 1, videoPos := 0, videoMuted := true,
    videoVolume := 1, videoPaused := false }

/-- A second-revision state with a pending auto-stop deadline at 1
(witness fixture). -/
def s2Pending : V2.State :=
  { now := 0, cfg := cfgOcc, sources := [V2.mkSource 0 cfgOcc], trackedSet := [0],
    isPlaying := true, playTimer := some 1, videoPos := 0, videoMuted := true,
    videoVolume := 1, videoPaused := false }

/-- Witness fixture codec: decoding always succeeds with a two-sample
buffer at 10 Hz whose second sample is loud. -/
def codecW : MediaBlob → Option PcmBuffer := fun _ => some { samples := [0, 1/2], sampleRate := 10 }

/-- Witness fixture blob: one non-zero byte. -/
def blobW : Option MediaBlob := some { bytes := [3] }

/-- Witness fixture record stored under key 1. -/
def recW : ClipRecord :=
  { id := 1, data := [7], mimeType := "video/webm", startTime := 0, endTime := 2,
    volume := 5, transform := defaultTransform, allowOverlap := false }

/-- Witness fixture store holding exactly `recW`. -/
def stW : ClipStore := fun j => if j = 1 then some recW else none

/-- Witness fixture store for the delete claim: slot 1 has no record. -/
def stWC8 : ClipStore := fun j => if j = 2 then some { recW with id := 2 } else none

/-- Witness fixture: an empty pad slot in its default shape. -/
def emptyCellW : AppCell :=
  { id := 1, videoUrl := none, audioBuffer := false, startTime := 0, endTime := 0,
    isEmpty := true, volume := 5, transform := defaultTransform, allowOverlap := false }

/-- Witness fixture: an occupied pad slot. -/
def fullCellW : AppCell :=
  { id := 2, videoUrl := some 9, audioBuffer := true, startTime := 0, endTime := 1,
    isEmpty := false, volume := 3, transform := defaultTransform, allowOverlap := true }

/-- Witness fixture URL map tracking only slot 2. -/
def urlsW : UrlMap := fun j => if j = 2 then some 9 else none

/-!  General lemmas about sources, stopping and activity. -/

theorem stopFrom_length (idxs : List ℕ) (j : ℕ) (ss : List Source) :
    (stopFrom idxs j ss).length = ss.length := by
  induction ss generalizing j with
  | nil => rfl
  | cons src ss ih => simp [stopFrom, ih]

theorem stopFrom_get? (idxs : List ℕ) (j k : ℕ) (ss : List Source) :
    (stopFrom idxs j ss).get? k =
      (ss.get? k).map
        (fun src => if (j + k) ∈ idxs then { src with stopped := true } else src) := by
  induction ss generalizing j k with
  | nil => simp [stopFrom]
  | cons src ss ih =>
    cases k with
    | zero => simp [stopFrom]
    | succ k =>
      simp only [stopFrom, List.get?_cons_succ, ih (j+1) k]
      have : j + 1 + k = j + (k + 1) := by omega
      rw [this]

theorem srcActive_mono {t u : ℚ} (h : t ≤ u) (src : Source)
    (ha : srcActive u src = true) : srcActive t src = true := by
  simp only [srcActive, Bool.and_eq_true, decide_eq_true_eq, Bool.not_eq_true'] at ha ⊢
  exact ⟨ha.1, lt_of_le_of_lt h ha.2⟩

theorem countActive_append (now : ℚ) (a b : List Source) :
    countActive now (a ++ b) = countActive now a + countActive now b := by
  simp [countActive, List.filter_append]

theorem countActive_le_one (now : ℚ) (ss : List Source)
    (h : ∀ k l sk sl, ss.get? k = some sk → ss.get? l = some sl →
      srcActive now sk = true → srcActive now sl = true → k = l) :
    countActive now ss ≤ 1 := by
  induction ss with
  | nil => simp [countActive]
  | cons src rest ih =>
    by_cases ha : srcActive now src = true
    · have hrest : countActive now rest = 0 := by
        simp only [countActive, List.length_eq_zero, List.filter_eq_nil_iff]
        intro x hx
        obtain ⟨k, hk⟩ := List.get?_of_mem hx
        intro hax
        have := h (k+1) 0 x src (by simpa using hk) (by simp) hax ha
        omega
      have hstep : countActive now (src :: rest) = countActive now rest + 1 := by
        simp [countActive, List.filter_cons, ha]
      omega
    · have hstep : countActive now (src :: rest) = countActive now rest := by
        simp [countActive, List.filter_cons, ha]
      rw [hstep]
      exact ih (fun k l sk sl hk hl hak hal => by
        have := h (k+1) (l+1) sk sl (by simpa using hk) (by simpa using hl) hak hal
        omega)

theorem countActive_eq_zero (now : ℚ) (ss : List Source)
    (h : ∀ src ∈ ss, srcActive now src = false) : countActive now ss = 0 := by
  simp only [countActive, List.length_eq_zero, List.filter_eq_nil_iff]
  intro x hx hax
  exact absurd (h x hx) (by simp [hax])

theorem le_lastTime {t : ℚ} {ts : List ℚ} (h : timesChain t ts = true) :
    t ≤ lastTime t ts := by
  induction ts generalizing t with
  | nil => simp [lastTime]
  | cons u us ih =>
    simp only [timesChain, Bool.and_eq_true, decide_eq_true_eq] at h
    exact le_trans h.1 (ih h.2)

theorem timesChain_le_lastTime {t : ℚ} {ts : List ℚ} (h : timesChain t ts = true) :
    ∀ u ∈ ts, u ≤ lastTime t ts := by
  induction ts generalizing t with
  | nil => simp
  | cons v us ih =>
    simp only [timesChain, Bool.and_eq_true, decide_eq_true_eq] at h
    intro u hu
    rcases List.mem_cons.mp hu with rfl | hu
    · exact le_lastTime h.2
    · exact ih h.2 u hu

/-!  Claim C9. -/

/-- C9: `decodeAudio`, given an empty byte blob (size 0 or null), fails
with an error rather than returning a PCM buffer — in both revisions of
`src/services/audio.ts`, for every platform codec. -/
theorem c9_decode_empty_fails (codec : MediaBlob → Option PcmBuffer)
    (blob : Option MediaBlob)
    (h : blob = none ∨ ∃ b, blob = some b ∧ b.bytes.length = 0) :
    (∃ e, decodeAudio codec blob = .error e) ∧
    (∃ e, decodeAudioV2 codec blob = .error e) := by
  rcases h with rfl | ⟨b, rfl, hb⟩
  · exact ⟨⟨_, rfl⟩, ⟨_, rfl⟩⟩
  · constructor
    · exact ⟨"Cannot decode empty or null blob", by simp [decodeAudio, hb]⟩
    · exact ⟨"Blob vacio", by simp [decodeAudioV2, hb]⟩

/-- Witness for C9 at the concrete zero-byte blob. -/
theorem c9_decode_empty_fails_witness :
    (∃ e, decodeAudio (fun _ => none) (some { bytes := [] }) = .error e) ∧
    (∃ e, decodeAudioV2 (fun _ => none) (some { bytes := [] }) = .error e) :=
  c9_decode_empty_fails (fun _ => none) (some { bytes := [] })
    (Or.inr ⟨{ bytes := [] }, rfl, rfl⟩)

/-!  Claim C10. -/

/-- C10: `updateClipVolume(id, v)` and `updateClipOverlap(id, b)` modify
only the `volume` (respectively `allowOverlap`) field of the record with
key `id`, leave every other record unchanged, and leave the store
entirely unchanged (raising no error) when no record with key `id`
exists. -/
theorem c10_update_frame (st : ClipStore) (id : ℕ) (v : ℚ) (b : Bool) :
    (∀ r, st id = some r → r.id = id →
      updateClipVolume id v st id = some { r with volume := v } ∧
      updateClipOverlap id b st id = some { r with allowOverlap := b } ∧
      (∀ j, j ≠ id → updateClipVolume id v st j = st j ∧
                     updateClipOverlap id b st j = st j)) ∧
    (st id = none →
      updateClipVolume id v st = st ∧ updateClipOverlap id b st = st) := by
  constructor
  · intro r hr hk
    refine ⟨?_, ?_, ?_⟩
    · simp [updateClipVolume, hr, putClip, hk]
    · simp [updateClipOverlap, hr, putClip, hk]
    · intro j hj
      constructor
      · simp [updateClipVolume, hr, putClip, hk, hj]
      · simp [updateClipOverlap, hr, putClip, hk, hj]
  · intro hr
    constructor
    · simp [updateClipVolume, hr]
    · simp [updateClipOverlap, hr]

/-- Witness for C10 on the concrete one-record store `stW`. -/
theorem c10_update_frame_witness :
    updateClipVolume 1 7 stW 1 = some { recW with volume := 7 } ∧
    updateClipOverlap 1 true stW 1 = some { recW with allowOverlap := true } ∧
    updateClipVolume 1 7 stW 2 = stW 2 ∧
    updateClipVolume 3 7 stW = stW := by
  obtain ⟨h1, _⟩ := c10_update_frame stW 1 7 true
  obtain ⟨ha, hb, hc⟩ := h1 recW rfl rfl
  refine ⟨ha, hb, (hc 2 (by decide)).1, ?_⟩
  exact ((c10_update_frame stW 3 7 true).2 rfl).1

/-!  Claim C8. -/

/-- C8: deleting an already-empty cell is a no-op on observable state:
the cells array is unchanged, the single persistence operation is a
`delete` (never a `put` of a meaningless record) and leaves the store
unchanged, the tracked-URL map is unchanged, no error is raised (the
handler is total), and in general every cell other than the targeted one
is left untouched. -/
theorem c8_delete_empty_noop (id : ℕ) (cells : List AppCell) (st : ClipStore)
    (urls : UrlMap)
    (hc : ∀ c ∈ cells, c.id = id → c = emptied c)
    (hs : st id = none) (hu : urls id = none) :
    handleDeleteCells id cells = cells ∧
    applyDbOps st (handleDeleteOps id) = st ∧
    (∀ op ∈ handleDeleteOps id, op.isPut = false) ∧
    handleDeleteUrls id urls = urls ∧
    (∀ (cells2 : List AppCell) (c : AppCell), c ∈ cells2 → c.id ≠ id →
      c ∈ handleDeleteCells id cells2) := by
  refine ⟨?_, ?_, ?_, ?_, ?_⟩
  · unfold handleDeleteCells
    induction cells with
    | nil => rfl
    | cons c cs ih =>
      have hcs : ∀ c ∈ cs, c.id = id → c = emptied c :=
        fun c hmem => hc c (List.mem_cons_of_mem _ hmem)
      simp only [List.map_cons, ih hcs]
      by_cases h : c.id = id
      · rw [if_pos h, (hc c (List.mem_cons_self _ _) h).symm]
      · rw [if_neg h]
  · funext j
    simp only [handleDeleteOps, applyDbOps, applyDbOp, deleteClip]
    by_cases h : j = id
    · subst h; simp [hs]
    · simp [h]
  · intro op hop
    simp only [handleDeleteOps, List.mem_singleton] at hop
    subst hop; rfl
  · funext j
    simp only [handleDeleteUrls]
    by_cases h : j = id
    · subst h; simp [hu]
    · simp [h]
  · intro cells2 c hmem hne
    have h2 := List.mem_map_of_mem (fun a : AppCell => if a.id = id then emptied a else a) hmem
    simp only [if_neg hne] at h2
    exact h2

/-- Witness for C8 on a concrete grid with an empty slot 1 and an
occupied slot 2, deleting slot 1. -/
theorem c8_delete_empty_noop_witness :
    handleDeleteCells 1 [emptyCellW, fullCellW] = [emptyCellW, fullCellW] ∧
    applyDbOps stWC8 (handleDeleteOps 1) = stWC8 ∧
    (∀ op ∈ handleDeleteOps 1, op.isPut = false) ∧
    handleDeleteUrls 1 urlsW = urlsW := by
  have h := c8_delete_empty_noop 1 [emptyCellW, fullCellW] stWC8 urlsW
    (by decide) rfl rfl
  exact ⟨h.1, h.2.1, h.2.2.1, h.2.2.2.1⟩

/-!  Claim C5. -/

theorem max_zero_div_of_pos {a sr : ℚ} (h : 0 < sr) :
    max 0 a / sr = max 0 (a / sr) := by
  rcases le_total a 0 with ha | ha
  · rw [max_eq_left ha, zero_div,
      max_eq_left (div_nonpos_of_nonpos_of_nonneg ha h.le)]
  · rw [max_eq_right ha, max_eq_right (div_nonneg ha h.le)]

theorem sub_mul_div_of_ne {a sr c : ℚ} (h : sr ≠ 0) :
    (a - sr * c) / sr = a / sr - c := by
  rw [sub_div, mul_comm, mul_div_assoc, div_self h, mul_one]

/-- C5: `findBeatOnset`, on any byte blob, returns
`max(0, t - b)` where `t` is the time of the first decoded first-channel
sample whose absolute amplitude exceeds the fixed threshold and `b` is
the fixed backoff (0.05 s in the first revision, 0.03 s in the second,
both within the 30–50 ms band); it returns 0 when no sample exceeds the
threshold or when decoding fails.  Both revisions are total Lean
functions (the `try`/`catch` absorbs every decode failure), so no error
ever reaches the caller. -/
theorem c5_onset_spec (codec : MediaBlob → Option PcmBuffer)
    (blob : Option MediaBlob) (buf : PcmBuffer) (i : ℕ)
    (hsr : 0 < buf.sampleRate) :
    ((∃ e, decodeAudio codec blob = .error e) → findBeatOnset codec blob = 0) ∧
    ((∃ e, decodeAudioV2 codec blob = .error e) → findBeatOnsetV2 codec blob = 0) ∧
    (decodeAudio codec blob = .ok buf → firstAbove (15/100) buf.samples = none →
      findBeatOnset codec blob = 0) ∧
    (decodeAudioV2 codec blob = .ok buf → firstAbove (8/100) buf.samples = none →
      findBeatOnsetV2 codec blob = 0) ∧
    (decodeAudio codec blob = .ok buf → firstAbove (15/100) buf.samples = some i →
      findBeatOnset codec blob = max 0 ((i : ℚ) / buf.sampleRate - 5/100)) ∧
    (decodeAudioV2 codec blob = .ok buf → firstAbove (8/100) buf.samples = some i →
      findBeatOnsetV2 codec blob = max 0 ((i : ℚ) / buf.sampleRate - 3/100)) := by
  refine ⟨?_, ?_, ?_, ?_, ?_, ?_⟩
  · rintro ⟨e, he⟩; simp [findBeatOnset, he]
  · rintro ⟨e, he⟩; simp [findBeatOnsetV2, he]
  · intro hd hf; simp [findBeatOnset, hd, hf]
  · intro hd hf; simp [findBeatOnsetV2, hd, hf]
  · intro hd hf
    simp only [findBeatOnset, hd, hf]
    rw [max_zero_div_of_pos hsr, sub_mul_div_of_ne (ne_of_gt hsr)]
  · intro hd hf
    simp [findBeatOnsetV2, hd, hf]

/-- Witness for C5: a concrete 10 Hz buffer whose second sample (index 1,
time 0.1 s) is the first to exceed both thresholds; both revisions return
the backed-off clamped onset, and a failing decode returns 0. -/
theorem c5_onset_spec_witness :
    findBeatOnset codecW blobW = max 0 ((1 : ℚ) / 10 - 5/100) ∧
    findBeatOnsetV2 codecW blobW = max 0 ((1 : ℚ) / 10 - 3/100) ∧
    findBeatOnset codecW none = 0 := by
  have h := c5_onset_spec codecW blobW { samples := [0, 1/2], sampleRate := 10 } 1
    (by decide)
  refine ⟨h.2.2.2.2.1 rfl (by decide), h.2.2.2.2.2 rfl (by decide), ?_⟩
  have h0 := c5_onset_spec codecW none { samples := [0, 1/2], sampleRate := 10 } 1
    (by decide)
  exact h0.1 ⟨"Cannot decode empty or null blob", rfl⟩

/-!  Claim C7. -/

/-- C7: when a playback stop routine runs (`stopPlayback` in the first
revision, `stopVisuals` in the second, both fired by the auto-stop
timer), the resulting state has the video paused at exactly the cell's
`startTime` (never `endTime` or mid-window), the playing visual flag
cleared, and no pending auto-stop timer. -/
theorem c7_rest_position (s1 : V1.State) (s2 : V2.State) (t u : ℚ)
    (s1a : V1.State) (s2a : V2.State)
    (h1 : V1.step (.timerFire t) s1 = some s1a)
    (h2 : V2.step (.timerFire u) s2 = some s2a) :
    (s1a.videoPos = s1.cfg.startTime ∧ s1a.videoPaused = true ∧
     s1a.isPlaying = false ∧ s1a.playTimer = none) ∧
    (s2a.videoPos = s2.cfg.startTime ∧ s2a.videoPaused = true ∧
     s2a.isPlaying = false ∧ s2a.playTimer = none) := by
  constructor
  · simp only [V1.step] at h1
    split at h1
    · cases h1; simp [V1.fireTimer]
    · cases h1
  · simp only [V2.step] at h2
    split at h2
    · cases h2; simp [V2.fireTimer]
    · cases h2

/-- Witness for C7 on concrete pending states of both revisions. -/
theorem c7_rest_position_witness :
    ((V1.fireTimer 1 s1Pending).videoPos = s1Pending.cfg.startTime ∧
     (V1.fireTimer 1 s1Pending).videoPaused = true ∧
     (V1.fireTimer 1 s1Pending).isPlaying = false ∧
     (V1.fireTimer 1 s1Pending).playTimer = none) ∧
    ((V2.fireTimer 1 s2Pending).videoPos = s2Pending.cfg.startTime ∧
     (V2.fireTimer 1 s2Pending).videoPaused = true ∧
     (V2.fireTimer 1 s2Pending).isPlaying = false ∧
     (V2.fireTimer 1 s2Pending).playTimer = none) :=
  c7_rest_position s1Pending s2Pending 1 1
    (V1.fireTimer 1 s1Pending) (V2.fireTimer 1 s2Pending) (by decide) (by decide)

/-!  Claim C2. -/

/-- C2 (amended): re-triggering a cell while a previous auto-stop timer
is pending replaces that timer — provided the re-trigger's awaited
`video.play()` call succeeds — with one set to fire
`(endTime - startTime)` seconds (clamped non-negative) after the
re-trigger, in both revisions; the superseded deadline can then no
longer fire (unless it coincides with the new one), and the deadline
that does fire clears the playing flag.  A re-trigger whose `play()`
rejects cancels nothing: the earlier timer and the playing flag are left
exactly as they were, so the cell then stops at the first trigger's
deadline (see the counterexample). -/
theorem c2_retrigger_timer (s1 : V1.State) (s2 : V2.State) (t1 t2 d1 d2 : ℚ)
    (s1a : V1.State) (s2a : V2.State)
    (h1e : s1.cfg.isEmpty = false) (h1d : s1.playTimer = some d1)
    (h1 : V1.step (.trigger t1 true) s1 = some s1a)
    (h2e : s2.cfg.isEmpty = false) (h2su : s2.cfg.isSuspended = false)
    (h2d : s2.playTimer = some d2)
    (h2 : V2.step (.trigger t2 true) s2 = some s2a) :
    (s1a.playTimer = some (t1 + max 0 (s1.cfg.endTime - s1.cfg.startTime)) ∧
     (∀ s1b, V1.step (.timerFire d1) s1a = some s1b →
        d1 = t1 + max 0 (s1.cfg.endTime - s1.cfg.startTime)) ∧
     (∀ s1b, V1.step
        (.timerFire (t1 + max 0 (s1.cfg.endTime - s1.cfg.startTime))) s1a = some s1b →
        s1b.isPlaying = false ∧ s1b.playTimer = none)) ∧
    (s2a.playTimer = some (t2 + max 0 (s2.cfg.endTime - s2.cfg.startTime)) ∧
     (∀ s2b, V2.step (.timerFire d2) s2a = some s2b →
        d2 = t2 + max 0 (s2.cfg.endTime - s2.cfg.startTime)) ∧
     (∀ s2b, V2.step
        (.timerFire (t2 + max 0 (s2.cfg.endTime - s2.cfg.startTime))) s2a = some s2b →
        s2b.isPlaying = false ∧ s2b.playTimer = none)) ∧
    (∀ u s1f, V1.step (.trigger u false) s1 = some s1f →
       s1f.playTimer = s1.playTimer ∧ s1f.isPlaying = s1.isPlaying) ∧
    (∀ u s2f, V2.step (.trigger u false) s2 = some s2f →
       s2f.playTimer = s2.playTimer ∧ s2f.isPlaying = s2.isPlaying) := by
  have hs1 : s1a = V1.trigger t1 true s1 := by
    simp only [V1.step] at h1
    split at h1
    · exact (Option.some.inj h1).symm
    · cases h1
  have hs2 : s2a = V2.trigger t2 true s2 := by
    simp only [V2.step] at h2
    split at h2
    · exact (Option.some.inj h2).symm
    · cases h2
  subst hs1; subst hs2
  have hp1 : (V1.trigger t1 true s1).playTimer
      = some (t1 + max 0 (s1.cfg.endTime - s1.cfg.startTime)) := by
    simp [V1.trigger, h1e]
  have hp2 : (V2.trigger t2 true s2).playTimer
      = some (t2 + max 0 (s2.cfg.endTime - s2.cfg.startTime)) := by
    simp [V2.trigger, h2e, h2su]
  refine ⟨⟨hp1, ?_, ?_⟩, ⟨hp2, ?_, ?_⟩, ?_, ?_⟩
  · intro s1b hb
    simp only [V1.step] at hb
    split at hb
    · next hcond =>
      rw [hp1] at hcond
      exact (Option.some.inj hcond.1).symm
    · cases hb
  · intro s1b hb
    simp only [V1.step] at hb
    split at hb
    · cases hb; simp [V1.fireTimer]
    · cases hb
  · intro s2b hb
    simp only [V2.step] at hb
    split at hb
    · next hcond =>
      rw [hp2] at hcond
      exact (Option.some.inj hcond.1).symm
    · cases hb
  · intro s2b hb
    simp only [V2.step] at hb
    split at hb
    · cases hb; simp [V2.fireTimer]
    · cases hb
  · intro u s1f hf
    simp only [V1.step] at hf
    split at hf
    · cases hf
      by_cases he' : s1.cfg.isEmpty = true
      · simp [V1.trigger, he']
      · simp [V1.trigger, Bool.eq_false_iff.mpr he']
    · cases hf
  · intro u s2f hf
    simp only [V2.step] at hf
    split at hf
    · cases hf
      by_cases hg' : (s2.cfg.isEmpty || s2.cfg.isSuspended) = true
      · simp [V2.trigger, hg']
      · simp [V2.trigger, Bool.eq_false_iff.mpr hg']
    · cases hf

/-- Witness for C2: both revisions re-triggered at 0.5 while a deadline
at 1 is pending on a cell with window length 1. -/
theorem c2_retrigger_timer_witness :
    ((V1.trigger (1/2) true s1Pending).playTimer
       = some (1/2 + max 0 (s1Pending.cfg.endTime - s1Pending.cfg.startTime)) ∧
     (∀ s1b, V1.step (.timerFire 1) (V1.trigger (1/2) true s1Pending) = some s1b →
        (1 : ℚ) = 1/2 + max 0 (s1Pending.cfg.endTime - s1Pending.cfg.startTime)) ∧
     (∀ s1b, V1.step
        (.timerFire (1/2 + max 0 (s1Pending.cfg.endTime - s1Pending.cfg.startTime)))
        (V1.trigger (1/2) true s1Pending) = some s1b →
        s1b.isPlaying = false ∧ s1b.playTimer = none)) ∧
    ((V2.trigger (1/2) true s2Pending).playTimer
       = some (1/2 + max 0 (s2Pending.cfg.endTime - s2Pending.cfg.startTime)) ∧
     (∀ s2b, V2.step (.timerFire 1) (V2.trigger (1/2) true s2Pending) = some s2b →
        (1 : ℚ) = 1/2 + max 0 (s2Pending.cfg.endTime - s2Pending.cfg.startTime)) ∧
     (∀ s2b, V2.step
        (.timerFire (1/2 + max 0 (s2Pending.cfg.endTime - s2Pending.cfg.startTime)))
        (V2.trigger (1/2) true s2Pending) = some s2b →
        s2b.isPlaying = false ∧ s2b.playTimer = none)) ∧
    (∀ u s1f, V1.step (.trigger u false) s1Pending = some s1f →
       s1f.playTimer = s1Pending.playTimer ∧ s1f.isPlaying = s1Pending.isPlaying) ∧
    (∀ u s2f, V2.step (.trigger u false) s2Pending = some s2f →
       s2f.playTimer = s2Pending.playTimer ∧ s2f.isPlaying = s2Pending.isPlaying) :=
  c2_retrigger_timer s1Pending s2Pending (1/2) (1/2) 1 1
    (V1.trigger (1/2) true s1Pending) (V2.trigger (1/2) true s2Pending)
    rfl rfl (by decide) rfl rfl rfl (by decide)

/-- C2 counterexample: a re-trigger whose `video.play()` rejects does NOT
cancel the pending auto-stop timer.  In both revisions, after a trigger
at 0 (deadline 1) and a re-trigger at 0.5 whose play is rejected, the
pending deadline is still 1 — not the re-trigger's 1.5 — and when that
superseded first deadline fires, the cell's playing visual state is
cleared, contradicting the claim as stated. -/
theorem c2_counterexample :
    ((V1.run (V1.init cfgOcc) [.trigger 0 true, .trigger (1/2) false]).map
       (fun s => s.playTimer)) = some (some 1) ∧
    ((V2.run (V2.init cfgOcc) [.trigger 0 true, .trigger (1/2) false]).map
       (fun s => s.playTimer)) = some (some 1) ∧
    ((1 : ℚ) ≠ 1/2 + max 0 (cfgOcc.endTime - cfgOcc.startTime)) ∧
    ((V1.run (V1.init cfgOcc)
        [.trigger 0 true, .trigger (1/2) false, .timerFire 1]).map
       (fun s => (s.isPlaying, s.playTimer))) = some (false, none) ∧
    ((V2.run (V2.init cfgOcc)
        [.trigger 0 true, .trigger (1/2) false, .timerFire 1]).map
       (fun s => (s.isPlaying, s.playTimer))) = some (false, none) := by
  decide

/-!  Claim C3. -/

/-- C3 (amended to the first revision): with a decoded buffer present, a
trigger programs the new source's gain node to ramp from 0 to the
unclamped `volume` over 5 ms; without a decoded buffer, the video
fallback volume is `clamp(volume, 0, 1)` and the element is unmuted.
(The second revision instead applies `max(0, volume/10)` with no ramp
and has no unmuted fallback — see the counterexample.) -/
theorem c3_volume_paths (s : V1.State) (t : ℚ) (ok : Bool) (sa : V1.State)
    (he : s.cfg.isEmpty = false) (h : V1.step (.trigger t ok) s = some sa) :
    (s.cfg.hasAudioBuffer = true →
      sa.sources.getLast? = some (V1.mkSource t s.cfg) ∧
      (V1.mkSource t s.cfg).gainStart = 0 ∧
      (V1.mkSource t s.cfg).gainTarget = s.cfg.volume ∧
      (V1.mkSource t s.cfg).rampDur = 5/1000) ∧
    (s.cfg.hasAudioBuffer = false →
      sa.videoVolume = min 1 (max 0 s.cfg.volume) ∧ sa.videoMuted = false) := by
  have hsa : sa = V1.trigger t ok s := by
    simp only [V1.step] at h
    split at h
    · exact (Option.some.inj h).symm
    · cases h
  subst hsa
  constructor
  · intro hb
    refine ⟨?_, rfl, rfl, rfl⟩
    cases ok <;> simp [V1.trigger, he, hb]
  · intro hb
    cases ok <;> simp [V1.trigger, he, hb]

/-- Witness for C3 at the out-of-domain volume 12: the gain-node path
applies 12 as-is, the no-buffer fallback path applies clamp(12,0,1) = 1. -/
theorem c3_volume_paths_witness :
    ((V1.trigger 0 true (V1.init cfgVol12)).sources.getLast?
       = some (V1.mkSource 0 cfgVol12) ∧
     (V1.mkSource 0 cfgVol12).gainStart = 0 ∧
     (V1.mkSource 0 cfgVol12).gainTarget = cfgVol12.volume ∧
     (V1.mkSource 0 cfgVol12).rampDur = 5/1000) ∧
    ((V1.trigger 0 true (V1.init cfgVol12NoBuf)).videoVolume
       = min 1 (max 0 cfgVol12NoBuf.volume) ∧
     (V1.trigger 0 true (V1.init cfgVol12NoBuf)).videoMuted = false) := by
  constructor
  · exact (c3_volume_paths (V1.init cfgVol12) 0 true
      (V1.trigger 0 true (V1.init cfgVol12)) rfl (by decide)).1 rfl
  · exact (c3_volume_paths (V1.init cfgVol12NoBuf) 0 true
      (V1.trigger 0 true (V1.init cfgVol12NoBuf)) rfl (by decide)).2 rfl

/-- C3 counterexample: in the second revision a trigger on a cell whose
`volume` is 12 programs the gain node to max(0, 12/10) = 1.2 — not 12 —
with no ramp, so the claim's unclamped-gain description is false of that
revision. -/
theorem c3_counterexample :
    ((V2.run (V2.init cfgVol12) [.trigger 0 true]).map
      (fun s => s.sources.map (fun src => (src.gainStart, src.gainTarget, src.rampDur))))
      = some [(6/5, 6/5, 0)] ∧ ((6/5 : ℚ) ≠ 12) := by decide

/-!  Claim C4. -/

theorem V2.step_preserves_muted (e : Event) (s sa : V2.State)
    (h : V2.step e s = some sa) (hm : s.videoMuted = true) : sa.videoMuted = true := by
  cases e with
  | trigger t ok =>
    simp only [V2.step] at h
    split at h
    · cases h
      simp only [V2.trigger]
      split
      · exact hm
      · split <;> rfl
    · cases h
  | timerFire t =>
    simp only [V2.step] at h
    split at h
    · cases h; simpa [V2.fireTimer] using hm
    · cases h
  | sourceEnded i t =>
    simp only [V2.step] at h
    split at h
    · cases h; simpa [V2.endSource] using hm
    · cases h
  | setOverlap b t =>
    simp only [V2.step] at h
    split at h
    · cases h; simpa using hm
    · cases h
  | setVolume v t =>
    simp only [V2.step] at h
    split at h
    · cases h; simpa using hm
    · cases h
  | setSuspended b t =>
    simp only [V2.step] at h
    split at h
    · cases h; simpa using hm
    · cases h
  | unmount t =>
    simp only [V2.step] at h
    split at h
    · cases h; simpa [V2.unmountStep] using hm
    · cases h

theorem V2.run_preserves_muted (evs : List Event) (s sa : V2.State)
    (h : V2.run s evs = some sa) (hm : s.videoMuted = true) : sa.videoMuted = true := by
  induction evs generalizing s with
  | nil => cases h; exact hm
  | cons e es ih =>
    simp only [V2.run] at h
    cases hs : V2.step e s with
    | none => rw [hs] at h; exact Option.noConfusion h
    | some s1 => rw [hs] at h; exact ih s1 h (V2.step_preserves_muted e s s1 hs hm)

/-- C4 (amended): in the first revision, after every trigger on an
occupied cell the video element's mute state equals the presence of the
decoded audio buffer (muted iff `decodedAudio` is non-null).  In the
second revision the video element is muted in every reachable state
regardless of the decoded buffer, so the claimed unmuted fallback does
not exist there — see the counterexample. -/
theorem c4_mute_consistency (s : V1.State) (t : ℚ) (ok : Bool) (sa : V1.State)
    (he : s.cfg.isEmpty = false) (h : V1.step (.trigger t ok) s = some sa)
    (c2 : CellCfg) (evs : List Event) (s2 : V2.State)
    (h2 : V2.run (V2.init c2) evs = some s2) :
    sa.videoMuted = s.cfg.hasAudioBuffer ∧ s2.videoMuted = true := by
  constructor
  · have hsa : sa = V1.trigger t ok s := by
      simp only [V1.step] at h
      split at h
      · exact (Option.some.inj h).symm
      · cases h
    subst hsa
    cases hb : s.cfg.hasAudioBuffer <;> cases ok <;> simp [V1.trigger, he, hb]
  · exact V2.run_preserves_muted evs (V2.init c2) s2 h2 rfl

/-- Witness for C4: a trigger on an occupied buffered cell mutes the
video in the first revision, and a concrete second-revision run stays
muted. -/
theorem c4_mute_consistency_witness :
    (V1.trigger 0 true (V1.init cfgOcc)).videoMuted = cfgOcc.hasAudioBuffer ∧
    (V2.trigger 0 true (V2.init cfgOcc)).videoMuted = true :=
  c4_mute_consistency (V1.init cfgOcc) 0 true (V1.trigger 0 true (V1.init cfgOcc))
    rfl (by decide) cfgOcc [.trigger 0 true] (V2.trigger 0 true (V2.init cfgOcc))
    (by decide)

/-- C4 counterexample: in the second revision, a trigger on an occupied
cell whose audio decode failed (`decodedAudio` null) still leaves the
video element muted, so "muted iff decoded buffer exists" is false. -/
theorem c4_counterexample :
    ((V2.run (V2.init cfgNoBuf) [.trigger 0 true]).map
      (fun s => (s.videoMuted, s.cfg.hasAudioBuffer))) = some (true, false) := by
  decide

/-!  Claim C6. -/

theorem V1.trigger_poly (s : V1.State) (t : ℚ) (he : s.cfg.isEmpty = false)
    (hb : s.cfg.hasAudioBuffer = true) (ho : s.cfg.allowOverlap = true) :
    (V1.trigger t true s).sources = s.sources ++ [V1.mkSource t s.cfg] ∧
    (V1.trigger t true s).now = t ∧
    (V1.trigger t true s).cfg = s.cfg ∧
    (V1.trigger t true s).playTimer
      = some (t + max 0 (s.cfg.endTime - s.cfg.startTime)) := by
  have hafter : V1.afterStop s = (s.sources, s.tracked) := by
    simp only [V1.afterStop, ho]
    cases s.tracked <;> simp
  simp [V1.trigger, he, hb, hafter]

theorem V2.trigger_poly_v2 (s : V2.State) (t : ℚ) (he : s.cfg.isEmpty = false)
    (hsu : s.cfg.isSuspended = false)
    (hb : s.cfg.hasAudioBuffer = true) (ho : s.cfg.allowOverlap = true) :
    (V2.trigger t true s).sources = s.sources ++ [V2.mkSource t s.cfg] ∧
    (V2.trigger t true s).now = t ∧
    (V2.trigger t true s).cfg = s.cfg ∧
    (V2.trigger t true s).playTimer
      = some (t + max 0 (s.cfg.endTime - s.cfg.startTime)) := by
  have hafter : V2.afterStop s = (s.sources, s.trackedSet) := by
    simp [V2.afterStop, ho]
  simp [V2.trigger, he, hsu, hb, hafter]

theorem V1.polyRun (c : CellCfg) (he : c.isEmpty = false) (hb : c.hasAudioBuffer = true)
    (ho : c.allowOverlap = true) (B : ℚ) (ts : List ℚ) :
    ∀ (s : V1.State), s.cfg = c →
      timesChain s.now ts = true →
      (∀ u ∈ ts, u ≤ B) →
      (∀ u ∈ ts, B < u + max 0 (c.endTime - c.startTime)) →
      (∀ d, s.playTimer = some d → ∀ u ∈ ts, u ≤ d) →
      ∃ sa, V1.run s (ts.map (fun u => Event.trigger u true)) = some sa ∧
        sa.sources = s.sources ++ ts.map (fun u => V1.mkSource u c) ∧
        sa.now = lastTime s.now ts ∧ sa.cfg = c := by
  induction ts with
  | nil =>
    intro s hcfg _ _ _ _
    exact ⟨s, rfl, by simp, rfl, hcfg⟩
  | cons u us ih =>
    intro s hcfg hch hup hwin hd
    simp only [timesChain, Bool.and_eq_true, decide_eq_true_eq] at hch
    obtain ⟨hnu, hch2⟩ := hch
    have htime : V1.timeOk s u = true := by
      simp only [V1.timeOk, Bool.and_eq_true, decide_eq_true_eq]
      refine ⟨hnu, ?_⟩
      cases hp : s.playTimer with
      | none => rfl
      | some d => simpa using hd d hp u (by simp)
    have hstep : V1.step (.trigger u true) s = some (V1.trigger u true s) := by
      simp [V1.step, htime]
    obtain ⟨hsrc, hnow, hcfg1, hpt⟩ := V1.trigger_poly s u
      (by rw [hcfg]; exact he) (by rw [hcfg]; exact hb) (by rw [hcfg]; exact ho)
    have hD : max 0 (s.cfg.endTime - s.cfg.startTime)
        = max 0 (c.endTime - c.startTime) := by rw [hcfg]
    obtain ⟨sa, hrun, hsa, hnowa, hcfga⟩ := ih (V1.trigger u true s)
      (by rw [hcfg1, hcfg])
      (by rw [hnow]; exact hch2)
      (fun v hv => hup v (List.mem_cons_of_mem _ hv))
      (fun v hv => hwin v (List.mem_cons_of_mem _ hv))
      (by
        intro d hpd v hv
        rw [hpt, hD] at hpd
        have h1 : v ≤ B := hup v (List.mem_cons_of_mem _ hv)
        have h2 : B < u + max 0 (c.endTime - c.startTime) :=
          hwin u (List.mem_cons_self _ _)
        have := Option.some.inj hpd
        rw [← this]
        exact le_of_lt (lt_of_le_of_lt h1 h2))
    refine ⟨sa, ?_, ?_, ?_, hcfga⟩
    · simp only [List.map_cons, V1.run, hstep]
      exact hrun
    · rw [hsa, hsrc, hcfg, List.append_assoc]
      simp
    · rw [hnowa, hnow]
      rfl

theorem V2.polyRun_v2 (c : CellCfg) (he : c.isEmpty = false) (hsu : c.isSuspended = false)
    (hb : c.hasAudioBuffer = true)
    (ho : c.allowOverlap = true) (B : ℚ) (ts : List ℚ) :
    ∀ (s : V2.State), s.cfg = c →
      timesChain s.now ts = true →
      (∀ u ∈ ts, u ≤ B) →
      (∀ u ∈ ts, B < u + max 0 (c.endTime - c.startTime)) →
      (∀ d, s.playTimer = some d → ∀ u ∈ ts, u ≤ d) →
      ∃ sa, V2.run s (ts.map (fun u => Event.trigger u true)) = some sa ∧
        sa.sources = s.sources ++ ts.map (fun u => V2.mkSource u c) ∧
        sa.now = lastTime s.now ts ∧ sa.cfg = c := by
  induction ts with
  | nil =>
    intro s hcfg _ _ _ _
    exact ⟨s, rfl, by simp, rfl, hcfg⟩
  | cons u us ih =>
    intro s hcfg hch hup hwin hd
    simp only [timesChain, Bool.and_eq_true, decide_eq_true_eq] at hch
    obtain ⟨hnu, hch2⟩ := hch
    have htime : V2.timeOk s u = true := by
      simp only [V2.timeOk, Bool.and_eq_true, decide_eq_true_eq]
      refine ⟨hnu, ?_⟩
      cases hp : s.playTimer with
      | none => rfl
      | some d => simpa using hd d hp u (by simp)
    have hstep : V2.step (.trigger u true) s = some (V2.trigger u true s) := by
      simp [V2.step, htime]
    obtain ⟨hsrc, hnow, hcfg1, hpt⟩ := V2.trigger_poly_v2 s u
      (by rw [hcfg]; exact he) (by rw [hcfg]; exact hsu)
      (by rw [hcfg]; exact hb) (by rw [hcfg]; exact ho)
    have hD : max 0 (s.cfg.endTime - s.cfg.startTime)
        = max 0 (c.endTime - c.startTime) := by rw [hcfg]
    obtain ⟨sa, hrun, hsa, hnowa, hcfga⟩ := ih (V2.trigger u true s)
      (by rw [hcfg1, hcfg])
      (by rw [hnow]; exact hch2)
      (fun v hv => hup v (List.mem_cons_of_mem _ hv))
      (fun v hv => hwin v (List.mem_cons_of_mem _ hv))
      (by
        intro d hpd v hv
        rw [hpt, hD] at hpd
        have h1 : v ≤ B := hup v (List.mem_cons_of_mem _ hv)
        have h2 : B < u + max 0 (c.endTime - c.startTime) :=
          hwin u (List.mem_cons_self _ _)
        have := Option.some.inj hpd
        rw [← this]
        exact le_of_lt (lt_of_le_of_lt h1 h2))
    refine ⟨sa, ?_, ?_, ?_, hcfga⟩
    · simp only [List.map_cons, V2.run, hstep]
      exact hrun
    · rw [hsa, hsrc, hcfg, List.append_assoc]
      simp
    · rw [hnowa, hnow]
      rfl

/-- C6: on a polyphonic cell (`allowOverlap = true`, decoded buffer
present), M rapid sequential triggers all falling inside the first
trigger's clip-duration window leave M concurrently active audio
instances — none stopped or pre-empted — in both revisions. -/
theorem c6_polyphonic (c : CellCfg) (he : c.isEmpty = false) (hsu : c.isSuspended = false)
    (hb : c.hasAudioBuffer = true) (ho : c.allowOverlap = true)
    (ts : List ℚ) (hch : timesChain 0 ts = true)
    (hwin : ∀ u ∈ ts, lastTime 0 ts < u + max 0 (c.endTime - c.startTime)) :
    (∃ s1, V1.run (V1.init c) (ts.map (fun u => Event.trigger u true)) = some s1 ∧
       s1.sources.length = ts.length ∧
       (∀ src ∈ s1.sources, src.stopped = false ∧ srcActive s1.now src = true) ∧
       countActive s1.now s1.sources = ts.length) ∧
    (∃ s2, V2.run (V2.init c) (ts.map (fun u => Event.trigger u true)) = some s2 ∧
       s2.sources.length = ts.length ∧
       (∀ src ∈ s2.sources, src.stopped = false ∧ srcActive s2.now src = true) ∧
       countActive s2.now s2.sources = ts.length) := by
  have hup := timesChain_le_lastTime hch
  constructor
  · obtain ⟨sa, hrun, hsrc, hnow, _⟩ :=
      V1.polyRun c he hb ho (lastTime 0 ts) ts (V1.init c) rfl hch hup hwin
        (by intro d hd; cases hd)
    have hsrc' : sa.sources = ts.map (fun u => V1.mkSource u c) := by
      simpa using hsrc
    have hact : ∀ src ∈ sa.sources, src.stopped = false ∧ srcActive sa.now src = true := by
      intro src hmem
      rw [hsrc'] at hmem
      obtain ⟨u, hu, rfl⟩ := List.mem_map.mp hmem
      refine ⟨rfl, ?_⟩
      simp only [srcActive, V1.mkSource, Bool.not_false, Bool.true_and,
        decide_eq_true_eq]
      rw [hnow]
      exact hwin u hu
    refine ⟨sa, hrun, ?_, hact, ?_⟩
    · rw [hsrc']; simp
    · rw [countActive, List.filter_eq_self.mpr (fun src hmem => (hact src hmem).2)]
      rw [hsrc']; simp
  · obtain ⟨sa, hrun, hsrc, hnow, _⟩ :=
      V2.polyRun_v2 c he hsu hb ho (lastTime 0 ts) ts (V2.init c) rfl hch hup hwin
        (by intro d hd; cases hd)
    have hsrc' : sa.sources = ts.map (fun u => V2.mkSource u c) := by
      simpa using hsrc
    have hact : ∀ src ∈ sa.sources, src.stopped = false ∧ srcActive sa.now src = true := by
      intro src hmem
      rw [hsrc'] at hmem
      obtain ⟨u, hu, rfl⟩ := List.mem_map.mp hmem
      refine ⟨rfl, ?_⟩
      simp only [srcActive, V2.mkSource, Bool.not_false, Bool.true_and,
        decide_eq_true_eq]
      rw [hnow]
      exact hwin u hu
    refine ⟨sa, hrun, ?_, hact, ?_⟩
    · rw [hsrc']; simp
    · rw [countActive, List.filter_eq_self.mpr (fun src hmem => (hact src hmem).2)]
      rw [hsrc']; simp

/-- Witness for C6: three rapid triggers at 0, 0.25 and 0.5 on a
one-second polyphonic clip leave three concurrently active instances in
both revisions. -/
theorem c6_polyphonic_witness :
    (∃ s1, V1.run (V1.init cfgPoly)
        ([0, 1/4, 1/2].map (fun u => Event.trigger u true)) = some s1 ∧
       s1.sources.length = ([0, 1/4, 1/2] : List ℚ).length ∧
       (∀ src ∈ s1.sources, src.stopped = false ∧ srcActive s1.now src = true) ∧
       countActive s1.now s1.sources = ([0, 1/4, 1/2] : List ℚ).length) ∧
    (∃ s2, V2.run (V2.init cfgPoly)
        ([0, 1/4, 1/2].map (fun u => Event.trigger u true)) = some s2 ∧
       s2.sources.length = ([0, 1/4, 1/2] : List ℚ).length ∧
       (∀ src ∈ s2.sources, src.stopped = false ∧ srcActive s2.now src = true) ∧
       countActive s2.now s2.sources = ([0, 1/4, 1/2] : List ℚ).length) :=
  c6_polyphonic cfgPoly rfl rfl rfl rfl [0, 1/4, 1/2] (by decide) (by decide)

/-!  Claim C1. -/

theorem stopFrom_zero_get? (idxs : List ℕ) (k : ℕ) (ss : List Source) :
    (stopFrom idxs 0 ss).get? k =
      (ss.get? k).map
        (fun src => if k ∈ idxs then { src with stopped := true } else src) := by
  rw [stopFrom_get?]
  simp

theorem V1.timeOk_le {s : V1.State} {t : ℚ} (h : V1.timeOk s t = true) : s.now ≤ t := by
  simp only [V1.timeOk, Bool.and_eq_true, decide_eq_true_eq] at h
  exact h.1

theorem V2.timeOk_le_v2 {s : V2.State} {t : ℚ} (h : V2.timeOk s t = true) : s.now ≤ t := by
  simp only [V2.timeOk, Bool.and_eq_true, decide_eq_true_eq] at h
  exact h.1

theorem countActive_le_one_singleton (now : ℚ) (src : Source) :
    countActive now [src] ≤ 1 := by
  simp only [countActive, List.filter]
  split <;> simp

theorem srcActive_false_of_stopped {now : ℚ} {src : Source} (h : src.stopped = true) :
    srcActive now src = false := by simp [srcActive, h]

/-- Every source of the second revision's stop-all result is inaudible at
any instant `t ≥ now`, given that every audible source was tracked. -/
theorem V2.stopAll_inactive (s : V2.State) (t : ℚ) (hle : s.now ≤ t)
    (hi : V2.InvTracked s) :
    ∀ k src, (stopFrom s.trackedSet 0 s.sources).get? k = some src →
      srcActive t src = false := by
  intro k src hk
  rw [stopFrom_zero_get?] at hk
  cases hsk : s.sources.get? k with
  | none => rw [hsk] at hk; cases hk
  | some src0 =>
    rw [hsk, Option.map_some'] at hk
    have hk' := Option.some.inj hk
    by_cases hmem : k ∈ s.trackedSet
    · rw [if_pos hmem] at hk'
      rw [← hk']
      simp [srcActive]
    · rw [if_neg hmem] at hk'
      rw [← hk']
      cases hact : srcActive t src0 with
      | false => rfl
      | true => exact absurd (hi k src0 hsk (srcActive_mono hle src0 hact)) hmem

theorem V2.trigger_parts_buf_v2 (s : V2.State) (t : ℚ) (ok : Bool)
    (hg : (s.cfg.isEmpty || s.cfg.isSuspended) = false)
    (hb : s.cfg.hasAudioBuffer = true) :
    (V2.trigger t ok s).now = t ∧
    (V2.trigger t ok s).sources = (V2.afterStop s).1 ++ [V2.mkSource t s.cfg] ∧
    (V2.trigger t ok s).trackedSet
      = (V2.afterStop s).1.length :: (V2.afterStop s).2 := by
  cases ok <;> simp [V2.trigger, hg, hb]

theorem V2.trigger_parts_nobuf_v2 (s : V2.State) (t : ℚ) (ok : Bool)
    (hg : (s.cfg.isEmpty || s.cfg.isSuspended) = false)
    (hb : s.cfg.hasAudioBuffer = false) :
    (V2.trigger t ok s).now = t ∧
    (V2.trigger t ok s).sources = (V2.afterStop s).1 ∧
    (V2.trigger t ok s).trackedSet = (V2.afterStop s).2 := by
  cases ok <;> simp [V2.trigger, hg, hb]

theorem V2.trigger_inv (s : V2.State) (t : ℚ) (ok : Bool) (hle : s.now ≤ t)
    (hi : V2.InvTracked s) : V2.InvTracked (V2.trigger t ok s) := by
  by_cases hg : (s.cfg.isEmpty || s.cfg.isSuspended) = true
  · intro k src hk hact
    have hid : V2.trigger t ok s = s := by simp [V2.trigger, hg]
    rw [hid] at hk hact ⊢
    exact hi k src hk hact
  · have hg' : (s.cfg.isEmpty || s.cfg.isSuspended) = false :=
      Bool.eq_false_iff.mpr hg
    by_cases ho : s.cfg.allowOverlap = true
    · have hafter : V2.afterStop s = (s.sources, s.trackedSet) := by
        simp [V2.afterStop, ho]
      cases hb : s.cfg.hasAudioBuffer with
      | false =>
        obtain ⟨hnow, hsrcs, hset⟩ := V2.trigger_parts_nobuf_v2 s t ok hg' hb
        rw [hafter] at hsrcs hset
        intro k src hk hact
        rw [hnow] at hact
        rw [hsrcs] at hk
        rw [hset]
        exact hi k src hk (srcActive_mono hle src hact)
      | true =>
        obtain ⟨hnow, hsrcs, hset⟩ := V2.trigger_parts_buf_v2 s t ok hg' hb
        rw [hafter] at hsrcs hset
        intro k src hk hact
        rw [hnow] at hact
        rw [hsrcs] at hk
        rw [hset]
        rcases Nat.lt_trichotomy k s.sources.length with hlt | heq | hgt
        · rw [List.get?_append hlt] at hk
          exact List.mem_cons_of_mem _ (hi k src hk (srcActive_mono hle src hact))
        · subst heq
          exact List.mem_cons_self _ _
        · rw [List.get?_append_right (Nat.le_of_lt hgt)] at hk
          have hge : 1 ≤ k - s.sources.length := by omega
          rw [List.get?_eq_none.mpr (by simpa using hge)] at hk
          cases hk
    · have ho' : s.cfg.allowOverlap = false := Bool.eq_false_iff.mpr ho
      have hafter : V2.afterStop s = (stopFrom s.trackedSet 0 s.sources, []) := by
        simp [V2.afterStop, ho']
      have hlen : (stopFrom s.trackedSet 0 s.sources).length = s.sources.length :=
        stopFrom_length _ _ _
      cases hb : s.cfg.hasAudioBuffer with
      | false =>
        obtain ⟨hnow, hsrcs, hset⟩ := V2.trigger_parts_nobuf_v2 s t ok hg' hb
        rw [hafter] at hsrcs hset
        intro k src hk hact
        rw [hnow] at hact
        rw [hsrcs] at hk
        exact absurd hact (by simp [V2.stopAll_inactive s t hle hi k src hk])
      | true =>
        obtain ⟨hnow, hsrcs, hset⟩ := V2.trigger_parts_buf_v2 s t ok hg' hb
        rw [hafter] at hsrcs hset
        intro k src hk hact
        rw [hnow] at hact
        rw [hsrcs] at hk
        rw [hset]
        rcases Nat.lt_trichotomy k s.sources.length with hlt | heq | hgt
        · rw [List.get?_append (by rw [hlen]; exact hlt)] at hk
          exact absurd hact (by simp [V2.stopAll_inactive s t hle hi k src hk])
        · subst heq
          rw [← hlen, List.get?_concat_length] at hk
          have := Option.some.inj hk
          rw [hlen]
          exact List.mem_cons_self _ _
        · rw [List.get?_append_right (by rw [hlen]; exact Nat.le_of_lt hgt)] at hk
          have hge : 1 ≤ k - (stopFrom s.trackedSet 0 s.sources).length := by omega
          rw [List.get?_eq_none.mpr (by simpa using hge)] at hk
          cases hk

theorem V2.step_preserves_inv (e : Event) (s sa : V2.State)
    (h : V2.step e s = some sa) (hi : V2.InvTracked s) : V2.InvTracked sa := by
  cases e with
  | trigger t ok =>
    simp only [V2.step] at h
    split at h
    · next htime =>
      cases h
      exact V2.trigger_inv s t ok (V2.timeOk_le_v2 htime) hi
    · cases h
  | timerFire t =>
    simp only [V2.step] at h
    split at h
    · next hcond =>
      cases h
      intro k src hk hact
      exact hi k src hk (srcActive_mono hcond.2 src hact)
    · cases h
  | sourceEnded i t =>
    simp only [V2.step] at h
    split at h
    · next hcond =>
      cases h
      obtain ⟨htime, hended⟩ := hcond
      intro k src hk hact
      simp only [V2.endSource] at hk hact ⊢
      have hle : s.now ≤ t := V2.timeOk_le_v2 htime
      have hmem : k ∈ s.trackedSet := hi k src hk (srcActive_mono hle src hact)
      have hne : k ≠ i := by
        intro hki
        subst hki
        simp only [V2.endedOk, hk] at hended
        rcases Bool.or_eq_true_iff.mp hended with hst | hend
        · rw [srcActive_false_of_stopped hst] at hact
          cases hact
        · simp only [srcActive, Bool.and_eq_true, decide_eq_true_eq,
            Bool.not_eq_true'] at hact
          exact absurd hact.2 (not_lt.mpr (by exact_mod_cast of_decide_eq_true hend))
      simp only [List.mem_filter]
      exact ⟨hmem, by simpa using hne⟩
    · cases h
  | setOverlap b t =>
    simp only [V2.step] at h
    split at h
    · next htime =>
      cases h
      intro k src hk hact
      exact hi k src hk (srcActive_mono (V2.timeOk_le_v2 htime) src hact)
    · cases h
  | setVolume v t =>
    simp only [V2.step] at h
    split at h
    · next htime =>
      cases h
      intro k src hk hact
      exact hi k src hk (srcActive_mono (V2.timeOk_le_v2 htime) src hact)
    · cases h
  | setSuspended b t =>
    simp only [V2.step] at h
    split at h
    · next htime =>
      cases h
      intro k src hk hact
      exact hi k src hk (srcActive_mono (V2.timeOk_le_v2 htime) src hact)
    · cases h
  | unmount t =>
    simp only [V2.step] at h
    split at h
    · next htime =>
      cases h
      intro k src hk hact
      simp only [V2.unmountStep] at hk hact
      exact absurd hact
        (by simp [V2.stopAll_inactive s t (V2.timeOk_le_v2 htime) hi k src hk])
    · cases h

theorem V2.run_preserves_inv (evs : List Event) (s sa : V2.State)
    (h : V2.run s evs = some sa) (hi : V2.InvTracked s) : V2.InvTracked sa := by
  induction evs generalizing s with
  | nil => cases h; exact hi
  | cons e es ih =>
    simp only [V2.run] at h
    cases hs : V2.step e s with
    | none => rw [hs] at h; exact Option.noConfusion h
    | some s1 => rw [hs] at h; exact ih s1 h (V2.step_preserves_inv e s s1 hs hi)

/-- Under the first revision's overlap enforcement with `allowOverlap`
false, every source surviving `afterStop` is inaudible at any `t ≥ now`,
provided every audible source was the tracked one; also the tracked ref
is nulled and the length is preserved. -/
theorem V1.afterStop_inactive (s : V1.State) (t : ℚ) (hle : s.now ≤ t)
    (ho : s.cfg.allowOverlap = false)
    (hi2 : ∀ k src, s.sources.get? k = some src → srcActive s.now src = true →
      s.tracked = some k) :
    (V1.afterStop s).2 = none ∧
    (∀ k src, (V1.afterStop s).1.get? k = some src → srcActive t src = false) ∧
    (V1.afterStop s).1.length = s.sources.length := by
  cases htr : s.tracked with
  | none =>
    have ha : V1.afterStop s = (s.sources, none) := by simp [V1.afterStop, htr]
    rw [ha]
    refine ⟨rfl, ?_, rfl⟩
    intro k src hk
    cases hact : srcActive t src with
    | false => rfl
    | true =>
      have h2 := hi2 k src hk (srcActive_mono hle src hact)
      rw [htr] at h2; cases h2
  | some i =>
    have ha : V1.afterStop s = (stopFrom [i] 0 s.sources, none) := by
      simp [V1.afterStop, htr, ho]
    rw [ha]
    refine ⟨rfl, ?_, stopFrom_length _ _ _⟩
    intro k src hk
    rw [stopFrom_zero_get?] at hk
    cases hsk : s.sources.get? k with
    | none => rw [hsk] at hk; cases hk
    | some src0 =>
      rw [hsk, Option.map_some'] at hk
      have hk' := Option.some.inj hk
      by_cases hmem : k ∈ [i]
      · rw [if_pos hmem] at hk'
        rw [← hk']; simp [srcActive]
      · rw [if_neg hmem] at hk'
        rw [← hk']
        cases hact : srcActive t src0 with
        | false => rfl
        | true =>
          have h2 := hi2 k src0 hsk (srcActive_mono hle src0 hact)
          rw [htr] at h2
          have hik : i = k := Option.some.inj h2
          exact absurd (by simp [hik]) hmem

theorem V1.trigger_parts_buf (s : V1.State) (t : ℚ)
    (he : s.cfg.isEmpty = false) (hb : s.cfg.hasAudioBuffer = true) :
    (V1.trigger t true s).now = t ∧
    (V1.trigger t true s).sources = (V1.afterStop s).1 ++ [V1.mkSource t s.cfg] ∧
    (V1.trigger t true s).tracked = some (V1.afterStop s).1.length ∧
    (V1.trigger t true s).playTimer
      = some (t + max 0 (s.cfg.endTime - s.cfg.startTime)) := by
  simp [V1.trigger, he, hb]

theorem V1.trigger_parts_nobuf (s : V1.State) (t : ℚ)
    (he : s.cfg.isEmpty = false) (hb : s.cfg.hasAudioBuffer = false) :
    (V1.trigger t true s).now = t ∧
    (V1.trigger t true s).sources = (V1.afterStop s).1 ∧
    (V1.trigger t true s).tracked = (V1.afterStop s).2 ∧
    (V1.trigger t true s).playTimer
      = some (t + max 0 (s.cfg.endTime - s.cfg.startTime)) := by
  simp [V1.trigger, he, hb]

theorem V1.step_preserves_invMono (e : Event) (s sa : V1.State)
    (hm : monoEvent e = true) (h : V1.step e s = some sa)
    (hi : V1.InvMono s) : V1.InvMono sa := by
  obtain ⟨hov, hi2, hi3⟩ := hi
  cases e with
  | trigger t ok =>
    have hok : ok = true := hm
    subst hok
    simp only [V1.step] at h
    split at h
    · next htime =>
      cases h
      have hle := V1.timeOk_le htime
      by_cases he : s.cfg.isEmpty = true
      · have hid : V1.trigger t true s = s := by simp [V1.trigger, he]
        rw [hid]
        exact ⟨hov, hi2, hi3⟩
      · have he' : s.cfg.isEmpty = false := Bool.eq_false_iff.mpr he
        obtain ⟨hnone, hinact, hlen⟩ := V1.afterStop_inactive s t hle hov hi2
        have hcfg : (V1.trigger t true s).cfg = s.cfg := by
          simp [V1.trigger, he']
        cases hb : s.cfg.hasAudioBuffer with
        | true =>
          obtain ⟨hnow, hsrcs, htrk, hpt⟩ := V1.trigger_parts_buf s t he' hb
          refine ⟨by rw [hcfg]; exact hov, ?_, ?_⟩
          · intro k src hk hact
            rw [hnow] at hact
            rw [hsrcs] at hk
            rw [htrk]
            rcases Nat.lt_trichotomy k (V1.afterStop s).1.length with hlt | heq | hgt
            · rw [List.get?_append hlt] at hk
              rw [hinact k src hk] at hact; cases hact
            · subst heq; rfl
            · rw [List.get?_append_right (Nat.le_of_lt hgt)] at hk
              have hge : 1 ≤ k - (V1.afterStop s).1.length := by omega
              rw [List.get?_eq_none.mpr (by simpa using hge)] at hk
              cases hk
          · intro i d src hti hpd hsi
            rw [htrk] at hti
            have hik : (V1.afterStop s).1.length = i := Option.some.inj hti
            rw [hpt] at hpd
            have hd := Option.some.inj hpd
            rw [hsrcs, ← hik, List.get?_concat_length] at hsi
            have hsrc := Option.some.inj hsi
            rw [← hsrc, ← hd]
            simp [V1.mkSource]
        | false =>
          obtain ⟨hnow, hsrcs, htrk, hpt⟩ := V1.trigger_parts_nobuf s t he' hb
          refine ⟨by rw [hcfg]; exact hov, ?_, ?_⟩
          · intro k src hk hact
            rw [hnow] at hact
            rw [hsrcs] at hk
            rw [hinact k src hk] at hact; cases hact
          · intro i d src hti hpd hsi
            rw [htrk, hnone] at hti
            cases hti
    · cases h
  | timerFire t =>
    simp only [V1.step] at h
    split at h
    · next hcond =>
      cases h
      refine ⟨hov, ?_, ?_⟩
      · intro k src hk hact
        simp only [V1.fireTimer] at hk hact ⊢
        have h2 := hi2 k src hk (srcActive_mono hcond.2 src hact)
        have h3 := hi3 k t src h2 hcond.1 hk
        simp only [srcActive, Bool.and_eq_true, decide_eq_true_eq] at hact
        exact absurd hact.2 (not_lt.mpr h3)
      · intro i d src hti hpd
        simp only [V1.fireTimer] at hpd
        cases hpd
    · cases h
  | sourceEnded i t =>
    simp only [V1.step] at h
    split at h
    · next hcond =>
      cases h
      obtain ⟨htime, hended⟩ := hcond
      have hle := V1.timeOk_le htime
      refine ⟨hov, ?_, ?_⟩
      · intro k src hk hact
        simp only [V1.endSource] at hk hact ⊢
        have h2 := hi2 k src hk (srcActive_mono hle src hact)
        have hki : s.tracked ≠ some i := by
          intro hsi
          rw [h2] at hsi
          have hik : k = i := Option.some.inj hsi
          subst hik
          simp only [V1.endedOk, hk] at hended
          rcases Bool.or_eq_true_iff.mp hended with hst | hend
          · rw [srcActive_false_of_stopped hst] at hact; cases hact
          · simp only [srcActive, Bool.and_eq_true, decide_eq_true_eq] at hact
            exact absurd hact.2 (not_lt.mpr (of_decide_eq_true hend))
        rw [if_neg hki]
        exact h2
      · intro j d src htj hpd hsj
        simp only [V1.endSource] at htj hpd hsj
        by_cases hsi : s.tracked = some i
        · rw [if_pos hsi] at htj; cases htj
        · rw [if_neg hsi] at htj
          exact hi3 j d src htj hpd hsj
    · cases h
  | setOverlap b t =>
    have hb : b = false := by
      simp only [monoEvent, Bool.not_eq_true'] at hm
      exact hm
    subst hb
    simp only [V1.step] at h
    split at h
    · next htime =>
      cases h
      refine ⟨rfl, ?_, ?_⟩
      · intro k src hk hact
        exact hi2 k src hk (srcActive_mono (V1.timeOk_le htime) src hact)
      · exact hi3
    · cases h
  | setVolume v t =>
    simp only [V1.step] at h
    split at h
    · next htime =>
      cases h
      refine ⟨hov, ?_, ?_⟩
      · intro k src hk hact
        exact hi2 k src hk (srcActive_mono (V1.timeOk_le htime) src hact)
      · exact hi3
    · cases h
  | setSuspended b t =>
    simp only [V1.step] at h
    split at h
    · next htime =>
      cases h
      refine ⟨hov, ?_, ?_⟩
      · intro k src hk hact
        exact hi2 k src hk (srcActive_mono (V1.timeOk_le htime) src hact)
      · exact hi3
    · cases h
  | unmount t =>
    simp only [V1.step] at h
    split at h
    · next htime =>
      cases h
      have hle := V1.timeOk_le htime
      obtain ⟨hnone, hinact, hlen⟩ := V1.afterStop_inactive s t hle hov hi2
      have hsrcs : (V1.unmountStep t s).sources = (V1.afterStop s).1 := by
        cases htr : s.tracked <;> simp [V1.unmountStep, V1.afterStop, htr, hov]
      refine ⟨hov, ?_, ?_⟩
      · intro k src hk hact
        rw [show (V1.unmountStep t s).now = t from rfl] at hact
        rw [hsrcs] at hk
        rw [hinact k src hk] at hact; cases hact
      · intro i d src hti hpd
        simp only [V1.unmountStep] at hpd
        cases hpd
    · cases h

theorem V1.run_preserves_invMono (evs : List Event) (s sa : V1.State)
    (hm : monoEvents evs = true)
    (h : V1.run s evs = some sa) (hi : V1.InvMono s) : V1.InvMono sa := by
  induction evs generalizing s with
  | nil => cases h; exact hi
  | cons e es ih =>
    simp only [monoEvents, List.all_cons, Bool.and_eq_true] at hm
    simp only [V1.run] at h
    cases hs : V1.step e s with
    | none => rw [hs] at h; exact Option.noConfusion h
    | some s1 =>
      rw [hs] at h
      exact ih s1 hm.2 h (V1.step_preserves_invMono e s s1 hm.1 hs hi)

/-- C1 (amended): in the Set-based revision, a pointer-down trigger on an
occupied, non-suspended cell with `allowOverlap = false` stops every
currently active audio instance of the cell before starting the new one
— every source that existed before the trigger is inaudible afterwards —
so at most one instance is active immediately after the trigger, from
any reachable state.  In the single-ref revision the same at-most-one
bound holds at every reachable state of every run in which `allowOverlap`
is never enabled and every `video.play()` succeeds.  (As stated, over all
reachable states, the claim is false — see the counterexample.) -/
theorem c1_monophonic (cfg : CellCfg) (evs : List Event) (s : V2.State)
    (t : ℚ) (ok : Bool) (sa : V2.State)
    (hrun : V2.run (V2.init cfg) evs = some s)
    (hov : s.cfg.allowOverlap = false)
    (he : s.cfg.isEmpty = false) (hsu : s.cfg.isSuspended = false)
    (hstep : V2.step (.trigger t ok) s = some sa) :
    ((∀ k src, sa.sources.get? k = some src → k < s.sources.length →
        srcActive sa.now src = false) ∧
     countActive sa.now sa.sources ≤ 1) ∧
    (∀ (cfg1 : CellCfg) (evs1 : List Event) (s1 : V1.State),
       cfg1.allowOverlap = false → monoEvents evs1 = true →
       V1.run (V1.init cfg1) evs1 = some s1 →
       countActive s1.now s1.sources ≤ 1) := by
  constructor
  · have hi : V2.InvTracked s := by
      apply V2.run_preserves_inv evs (V2.init cfg) s hrun
      intro k src hk _
      simp only [V2.init] at hk
      cases hk
    simp only [V2.step] at hstep
    split at hstep
    · next htime =>
      cases hstep
      have hle := V2.timeOk_le_v2 htime
      have hg' : (s.cfg.isEmpty || s.cfg.isSuspended) = false := by
        rw [he, hsu]; rfl
      have hafter : V2.afterStop s = (stopFrom s.trackedSet 0 s.sources, []) := by
        simp [V2.afterStop, hov]
      have hlen : (stopFrom s.trackedSet 0 s.sources).length = s.sources.length :=
        stopFrom_length _ _ _
      have hstop := V2.stopAll_inactive s t hle hi
      cases hb : s.cfg.hasAudioBuffer with
      | true =>
        obtain ⟨hnow, hsrcs, _⟩ := V2.trigger_parts_buf_v2 s t ok hg' hb
        rw [hafter] at hsrcs
        constructor
        · intro k src hk hklt
          rw [hnow]
          rw [hsrcs, List.get?_append (by rw [hlen]; exact hklt)] at hk
          exact hstop k src hk
        · rw [hnow, hsrcs, countActive_append]
          have h0 : countActive t (stopFrom s.trackedSet 0 s.sources) = 0 := by
            apply countActive_eq_zero
            intro src hmem
            obtain ⟨k, hk⟩ := List.get?_of_mem hmem
            exact hstop k src hk
          rw [h0]
          simpa using countActive_le_one_singleton t (V2.mkSource t s.cfg)
      | false =>
        obtain ⟨hnow, hsrcs, _⟩ := V2.trigger_parts_nobuf_v2 s t ok hg' hb
        rw [hafter] at hsrcs
        constructor
        · intro k src hk _
          rw [hnow]
          rw [hsrcs] at hk
          exact hstop k src hk
        · rw [hnow, hsrcs]
          have h0 : countActive t (stopFrom s.trackedSet 0 s.sources) = 0 := by
            apply countActive_eq_zero
            intro src hmem
            obtain ⟨k, hk⟩ := List.get?_of_mem hmem
            exact hstop k src hk
          rw [h0]
          exact Nat.zero_le 1
    · cases hstep
  · intro cfg1 evs1 s1 hov1 hm hrun1
    have hi : V1.InvMono s1 := by
      apply V1.run_preserves_invMono evs1 (V1.init cfg1) s1 hm hrun1
      refine ⟨hov1, ?_, ?_⟩
      · intro k src hk _
        simp only [V1.init] at hk
        cases hk
      · intro i d src hti hpd
        simp only [V1.init] at hpd
        cases hpd
    apply countActive_le_one
    intro k l sk sl hk hl hak hal
    have h2k := hi.2.1 k sk hk hak
    have h2l := hi.2.1 l sl hl hal
    exact Option.some.inj (h2k.symm.trans h2l)

/-- Witness for C1: re-trigger at 0.5 of an occupied monophonic cell
first triggered at 0, plus a concrete one-trigger monophonic run of the
first revision. -/
theorem c1_monophonic_witness :
    ((∀ k src,
        (V2.trigger (1/2) true (V2.trigger 0 true (V2.init cfgOcc))).sources.get? k
          = some src →
        k < (V2.trigger 0 true (V2.init cfgOcc)).sources.length →
        srcActive (V2.trigger (1/2) true (V2.trigger 0 true (V2.init cfgOcc))).now src
          = false) ∧
     countActive (V2.trigger (1/2) true (V2.trigger 0 true (V2.init cfgOcc))).now
       (V2.trigger (1/2) true (V2.trigger 0 true (V2.init cfgOcc))).sources ≤ 1) ∧
    (∀ (cfg1 : CellCfg) (evs1 : List Event) (s1 : V1.State),
       cfg1.allowOverlap = false → monoEvents evs1 = true →
       V1.run (V1.init cfg1) evs1 = some s1 →
       countActive s1.now s1.sources ≤ 1) :=
  c1_monophonic cfgOcc [.trigger 0 true] (V2.trigger 0 true (V2.init cfgOcc))
    (1/2) true (V2.trigger (1/2) true (V2.trigger 0 true (V2.init cfgOcc)))
    (by decide) (by decide) (by decide) (by decide) (by decide)

/-- C1 counterexample: two reachable states of the single-ref revision
with `allowOverlap = false` and TWO concurrently active audio instances.
First trace: two layered triggers while `allowOverlap` was true, then the
overlap toggle is switched off and the cell re-triggered — the trigger
stops only the single tracked instance, not every active one.  Second
trace (no toggle at all, `allowOverlap` false throughout): a re-trigger
whose `video.play()` rejects keeps the first trigger's stale timer, whose
`stopPlayback` nulls the tracked-source ref without stopping the source,
so the next trigger stops nothing. -/
theorem c1_counterexample :
    ((V1.run (V1.init cfgPoly)
        [.trigger 0 true, .trigger 0 true, .setOverlap false 0,
         .trigger 0 true]).map
      (fun s => (s.cfg.allowOverlap, countActive s.now s.sources)))
      = some (false, 2) ∧
    ((V1.run (V1.init cfgOcc)
        [.trigger 0 true, .trigger (1/2) false, .timerFire 1,
         .trigger (5/4) true]).map
      (fun s => (s.cfg.allowOverlap, countActive s.now s.sources)))
      = some (false, 2) := by
  decide
